import Mathlib

/-! AnKing note types add-on: occlusion editor and rect directive

A shallow embedding of `src/anking_notetypes/web/editor.js` (the `EditorIO`
object) and of `ts/src/browser/rect.ts` (`processProps`, `makeRects`).

Conventions of the embedding

* A JavaScript string is a list of characters (`JSString`).  Every pattern
  used by the code is ASCII, so matching over characters and matching over
  UTF-16 code units agree.
* A JavaScript object used as a property bag is its own-property table, a
  function from property names to `Option` of a value (`none`: no such own
  property).
* Mutable state of `EditorIO` is passed explicitly.
-/

namespace AnkingNotes

/-- A JavaScript string. -/
abbrev JSString := List Char

/-! ## Strings: the fragments of `String.prototype` the code uses -/

/-- Strip a literal from the front of a string, `none` when it is not there. -/
def stripPrefix : JSString → JSString → Option JSString
  | [], s => some s
  | _ :: _, [] => none
  | p :: ps, c :: s => if p = c then stripPrefix ps s else none

/-- `s.replace(pat, rep)` for a string pattern `pat` and a replacement string
without `$`: only the first occurrence of `pat` is replaced. -/
def replaceFirst (pat rep : JSString) : JSString → JSString
  | [] => if pat = [] then rep else []
  | c :: t =>
    match stripPrefix pat (c :: t) with
    | some rest => rep ++ rest
    | none => c :: replaceFirst pat rep t

/-- `s.split(/\r?\n/)`: the pieces between line breaks.  A separator is
`\n`, with the `\r` right before it when there is one: at a `\r` followed by
`\n` the current piece ends and the `\r` belongs to the separator, so the
pieces are those of the rest (which starts with `\n`). -/
def splitLines : JSString → List JSString
  | [] => [[]]
  | c :: t =>
    if c = '\n' then [] :: splitLines t
    else if c = '\r' ∧ t.head? = some '\n' then splitLines t
    else
      match splitLines t with
      | [] => [[c]]
      | h :: r => (c :: h) :: r

/-- `pieces.join(sep)`. -/
def join (sep : JSString) : List JSString → JSString
  | [] => []
  | [p] => p
  | p :: q :: r => p ++ sep ++ join sep (q :: r)

/-! ## Text Merge Engine (`editor.js`, `replaceOrPrefixOldOcclusionText`) -/

/-- Literal head of `/\[#!occlusions.*?#\]/`. -/
def blockOpen : JSString := "[#!occlusions".toList

/-- Literal tail of `/\[#!occlusions.*?#\]/`. -/
def blockClose : JSString := "#]".toList

/-- Characters that `.` does not match (no `s` flag): the line terminators. -/
def isLineTerminator (c : Char) : Bool :=
  c = '\n' || c = '\r' || c = Char.ofNat 0x2028 || c = Char.ofNat 0x2029

/-- The part `.*?#\]` of the pattern, tried at the front of a string: the
lazy quantifier takes as few characters as possible, so `#]` is tried first
and a further character is consumed only when that fails.  Returns the text
matched and the text after it. -/
def lazyToClose : JSString → Option (JSString × JSString)
  | [] => none
  | c :: t =>
    match stripPrefix blockClose (c :: t) with
    | some rest => some (blockClose, rest)
    | none =>
      if isLineTerminator c then none
      else
        match lazyToClose t with
        | some (m, rest) => some (c :: m, rest)
        | none => none

/-- The whole pattern `/\[#!occlusions.*?#\]/` tried at the front of a string:
the matched text and the text after it. -/
def matchAt (s : JSString) : Option (JSString × JSString) :=
  match stripPrefix blockOpen s with
  | none => none
  | some afterOpen =>
    match lazyToClose afterOpen with
    | some (m, rest) => some (blockOpen ++ m, rest)
    | none => none

/-- The leftmost match of the pattern in a string (what a non-global
`replace` or `exec` finds): text before, matched text, text after. -/
def execBlock : JSString → Option (JSString × JSString × JSString)
  | [] => none
  | c :: t =>
    match matchAt (c :: t) with
    | some (m, rest) => some ([], m, rest)
    | none =>
      match execBlock t with
      | some (pre, m, rest) => some (c :: pre, m, rest)
      | none => none

/-- Scan for successive non-overlapping matches: `skip` characters still
belong to the match found last. -/
def countFrom : Nat → JSString → Nat
  | _, [] => 0
  | k + 1, _ :: t => countFrom k t
  | 0, c :: t =>
    match matchAt (c :: t) with
    | some (m, _) => 1 + countFrom (m.length - 1) t
    | none => countFrom 0 t

/-- Number of matches of the block pattern in a string, as a global scan
(`s.match(/\[#!occlusions.*?#\]/g)`) counts them. -/
def countBlocks (s : JSString) : Nat := countFrom 0 s

/-- The local `newHTML`: `newText.split(/\r?\n/).join("<br>")`. -/
def newHTML (newText : JSString) : JSString :=
  join "<br>".toList (splitLines newText)

/-- The local `replacement`: the new block built around `newHTML`. -/
def replacement (newText : JSString) : JSString :=
  "[#!occlusions ".toList ++ newHTML newText ++ " #]".toList

/-- The `re.subn` imitation: `oldHTML.replace(occlusionBlockRegex, () => ...)`
with the number of substitutions made (0 or 1, the pattern is not global). -/
def subn (oldHTML repl : JSString) : JSString × Nat :=
  match execBlock oldHTML with
  | some (pre, _, rest) => (pre ++ repl ++ rest, 1)
  | none => (oldHTML, 0)

/-- `EditorIO.replaceOrPrefixOldOcclusionText(oldHTML, newText)`. -/
def replaceOrPrefixOldOcclusionText (oldHTML newText : JSString) : JSString :=
  let repl := replacement newText
  let (subbed, numberOfSubs) := subn oldHTML repl
  if numberOfSubs > 0 then subbed
  else if oldHTML = [] ∨ oldHTML = "<br>".toList then repl
  else repl ++ "<br>".toList ++ oldHTML

/-! ## Escaping and the field write (`escapeJSText`, `insertIntoZeroIndexed`) -/

/-- `EditorIO.escapeJSText(text)`: three `replace` calls with string
patterns, in the order of the source. -/
def escapeJSText (text : JSString) : JSString :=
  replaceFirst "'".toList "\\'".toList
    (replaceFirst "\"".toList "\\\"".toList
      (replaceFirst "\\".toList "\\\\".toList text))

/-- The editor page as `insertIntoZeroIndexed` sees it: the markup of the
rich-text editable of every field, and the commands sent through `pycmd`. -/
structure EditorPage where
  fields : List JSString
  pycmds : List JSString
deriving DecidableEq, Repr

/-- `EditorIO.getFieldHTML(index)`; `none` when there is no such field. -/
def getFieldHTML (page : EditorPage) (index : Nat) : Option JSString :=
  page.fields.get? index

/-- `EditorIO.setFieldHTML(index, html)`. -/
def setFieldHTML (page : EditorPage) (index : Nat) (html : JSString) : EditorPage :=
  { page with fields := page.fields.set index html }

/-- `EditorIO.insertIntoZeroIndexed(newText, index)`; `noteId` is what
`getNoteId()` returns.  `none` when the field does not exist (the source
throws on the missing field). -/
def insertIntoZeroIndexed (noteId : JSString) (newText : JSString) (index : Nat)
    (page : EditorPage) : Option EditorPage :=
  match getFieldHTML page index with
  | none => none
  | some oldHTML =>
    let text := replaceOrPrefixOldOcclusionText oldHTML newText
    let escaped := escapeJSText text
    let cmd := "key:".toList ++ (Nat.repr index).toList ++ ":".toList ++ noteId
      ++ ":".toList ++ escaped
    some (setFieldHTML { page with pycmds := page.pycmds ++ [cmd] } index escaped)

/-! ## Property bags and `processProps` (`rect.ts`) -/

/-- A value a property bag holds: a string, or `undefined`. -/
inductive JSValue where
  | undefined
  | string (s : JSString)
deriving DecidableEq, Repr

/-- `RectProperties`: the own properties of a plain object, by name. -/
abbrev RectProperties := JSString → Option JSValue

/-- The object literal `{}`. -/
def emptyObject : RectProperties := fun _ => none

/-- The property name `__proto__`. -/
def protoKey : JSString := "__proto__".toList

/-- The assignment `obj[name] = value` on a plain object.  The name
`__proto__` reaches the accessor inherited from `Object.prototype`, whose
setter ignores a value that is neither an object nor `null`: no own
property is made. -/
def setProp (obj : RectProperties) (name : JSString) (value : JSValue) : RectProperties :=
  if name = protoKey then obj
  else fun k => if k = name then some value else obj k

/-- `Object.assign(target, source)`: every own property of `source` is
assigned to `target` (through `setProp`, see there for `__proto__`). -/
def objectAssign (target source : RectProperties) : RectProperties :=
  fun k =>
    if k = protoKey then target k
    else
      match source k with
      | some v => some v
      | none => target k

/-- `s.split(sep)` for a one-character separator string. -/
def split (sep : Char) : JSString → List JSString
  | [] => [[]]
  | c :: t =>
    if c = sep then [] :: split sep t
    else
      match split sep t with
      | [] => [[c]]
      | h :: r => (c :: h) :: r

/-- The destructuring `[name, value]` of `propString.split("=")`: the first
piece, and the second piece or `undefined`. -/
def nameValue (propString : JSString) : JSString × JSValue :=
  let pieces := split '=' propString
  (pieces.headD [],
   match pieces.get? 1 with
   | some v => JSValue.string v
   | none => JSValue.undefined)

/-- The local `propObject` of `processProps` after the `forEach`: one
assignment per argument, in order. -/
def propObject (rest : List JSString) : RectProperties :=
  (rest.map nameValue).foldl (fun obj nv => setProp obj nv.1 nv.2) emptyObject

/-- `processProps(rest, overwriteProps)`. -/
def processProps (rest : List JSString) (overwriteProps : RectProperties) : RectProperties :=
  objectAssign (propObject rest) overwriteProps

/-! ## Numbers: `Number(value)` on the arguments of a directive -/

/-- A JavaScript number as far as the directive arguments need it: `NaN`, an
infinity, or a finite value.  A finite value is kept exact (the rounding of a
decimal literal to a double and the sign of zero are not part of the model). -/
inductive JSNumber where
  | nan
  | infinity (negative : Bool)
  | finite (q : ℚ)
deriving DecidableEq

/-- `StrWhiteSpaceChar`: white space and line terminators. -/
def isStrWhiteSpaceChar (c : Char) : Bool :=
  let n := c.toNat
  n = 9 || n = 10 || n = 11 || n = 12 || n = 13 || n = 32 || n = 0xA0
    || n = 0x1680 || (0x2000 ≤ n && n ≤ 0x200A) || n = 0x2028 || n = 0x2029
    || n = 0x202F || n = 0x205F || n = 0x3000 || n = 0xFEFF

/-- Strip `StrWhiteSpace` from both ends. -/
def trimWhiteSpace (s : JSString) : JSString :=
  ((s.dropWhile isStrWhiteSpaceChar).reverse.dropWhile isStrWhiteSpaceChar).reverse

/-- Value of a digit in a radix up to 16, `none` for any other character. -/
def digitValue (radix : Nat) (c : Char) : Option Nat :=
  let n := c.toNat
  let v :=
    if 48 ≤ n ∧ n ≤ 57 then some (n - 48)
    else if 97 ≤ n ∧ n ≤ 102 then some (n - 87)
    else if 65 ≤ n ∧ n ≤ 70 then some (n - 55)
    else none
  match v with
  | some d => if d < radix then some d else none
  | none => none

/-- Whether a character is a digit of the radix. -/
def isDigitOf (radix : Nat) (c : Char) : Bool := (digitValue radix c).isSome

/-- Value of a run of digits (most significant first). -/
def digitsValue (radix : Nat) (ds : JSString) : Nat :=
  ds.foldl (fun acc c => acc * radix + (digitValue radix c).getD 0) 0

/-- A non-empty run of digits of the radix and nothing else. -/
def allDigits (radix : Nat) (ds : JSString) : Bool :=
  !ds.isEmpty && ds.all (isDigitOf radix)

/-- `ExponentPart` when present: after `e` or `E`, an optional sign and a
non-empty run of decimal digits.  The empty string is the absent exponent. -/
def exponentPart : JSString → Option ℤ
  | [] => some 0
  | c :: t =>
    if c = 'e' ∨ c = 'E' then
      match t with
      | '+' :: ds => if allDigits 10 ds then some (digitsValue 10 ds) else none
      | '-' :: ds => if allDigits 10 ds then some (-(digitsValue 10 ds : ℤ)) else none
      | ds => if allDigits 10 ds then some (digitsValue 10 ds) else none
    else none

/-- `StrUnsignedDecimalLiteral`: `Infinity`, or digits with an optional
fraction and exponent (at least one digit before or after the point). -/
def strUnsignedDecimalLiteral (s : JSString) : Option JSNumber :=
  if s = "Infinity".toList then some (JSNumber.infinity false)
  else
    let intPart := s.takeWhile (isDigitOf 10)
    let afterInt := s.dropWhile (isDigitOf 10)
    let hasPoint := afterInt.head? = some '.'
    let fracPart := if hasPoint then afterInt.tail.takeWhile (isDigitOf 10) else []
    let afterFrac := if hasPoint then afterInt.tail.dropWhile (isDigitOf 10) else afterInt
    if intPart = [] ∧ fracPart = [] then none
    else
      match exponentPart afterFrac with
      | none => none
      | some e =>
        let mantissa : ℚ :=
          (digitsValue 10 intPart : ℚ) + (digitsValue 10 fracPart : ℚ) / (10 : ℚ) ^ fracPart.length
        some (JSNumber.finite (mantissa * (10 : ℚ) ^ e))

/-- Negation of a number. -/
def JSNumber.neg : JSNumber → JSNumber
  | .nan => .nan
  | .infinity b => .infinity (!b)
  | .finite q => .finite (-q)

/-- `StrNumericLiteral`: a signed decimal literal, or an unsigned literal of
radix 16, 8 or 2.  `none` when the text is not one. -/
def strNumericLiteral (s : JSString) : Option JSNumber :=
  match s with
  | '0' :: r :: ds =>
    if (r = 'x' ∨ r = 'X') then
      (if allDigits 16 ds then some (JSNumber.finite (digitsValue 16 ds)) else none)
    else if (r = 'o' ∨ r = 'O') then
      (if allDigits 8 ds then some (JSNumber.finite (digitsValue 8 ds)) else none)
    else if (r = 'b' ∨ r = 'B') then
      (if allDigits 2 ds then some (JSNumber.finite (digitsValue 2 ds)) else none)
    else strUnsignedDecimalLiteral s
  | '+' :: t => strUnsignedDecimalLiteral t
  | '-' :: t => (strUnsignedDecimalLiteral t).map JSNumber.neg
  | _ => strUnsignedDecimalLiteral s

/-- `StringNumericLiteral` read off a string: white space around an optional
`StrNumericLiteral`; the empty text stands for 0.  `none`: the string is not
numeric. -/
def stringNumericLiteral (s : JSString) : Option JSNumber :=
  let t := trimWhiteSpace s
  if t = [] then some (JSNumber.finite 0) else strNumericLiteral t

/-- `StringToNumber`: `NaN` for a string that is not numeric. -/
def stringToNumber (s : JSString) : JSNumber :=
  (stringNumericLiteral s).getD JSNumber.nan

/-- What the destructuring of `tag.values` binds: an argument string, or the
number of a default. -/
inductive ArgValue where
  | str (s : JSString)
  | num (n : JSNumber)
deriving DecidableEq

/-- `Number(value)`. -/
def toNumber : ArgValue → JSNumber
  | .str s => stringToNumber s
  | .num n => n

/-! ## `makeRects` (`rect.ts`) -/

/-- The parts of a `TagNode` that `makeRects` reads. -/
structure TagNode where
  fullKey : JSString
  values : List JSString

/-- `RectDefinition`: the tuple pushed onto the cached list. -/
structure RectDefinition where
  kind : JSString
  active : Bool
  fullKey : JSString
  x : JSNumber
  y : JSNumber
  width : JSNumber
  height : JSNumber
  options : RectProperties

/-- The parts of `Internals` that `makeRects` touches: the list cached under
`rectKeyword` (empty when nothing is cached yet) and the keywords with a
registered aftermath. -/
structure Internals where
  rectList : List RectDefinition
  aftermath : List JSString

/-- The argument `props` of `makeRects`: a property bag or a getter. -/
inductive PropsArg where
  | static (p : RectProperties)
  | getter (f : TagNode → Internals → RectProperties)

/-- The constant `rectKeyword`. -/
def rectKeyword : JSString := "occlusionRenderRect".toList

/-- `internals.aftermath.registerIfNotExists(keyword, ...)`. -/
def registerIfNotExists (keyword : JSString) (internals : Internals) : Internals :=
  if keyword ∈ internals.aftermath then internals
  else { internals with aftermath := internals.aftermath ++ [keyword] }

/-- The definition `makeRects` builds from a tag:
`[x = 0, y = 0, width = 50, height = width, ...rest] = tag.values`. -/
def rectDefinition (props : PropsArg) (tag : TagNode) (internals : Internals) :
    RectDefinition :=
  let x := (tag.values.get? 0).elim (ArgValue.num (.finite 0)) ArgValue.str
  let y := (tag.values.get? 1).elim (ArgValue.num (.finite 0)) ArgValue.str
  let width := (tag.values.get? 2).elim (ArgValue.num (.finite 50)) ArgValue.str
  let height := (tag.values.get? 3).elim width ArgValue.str
  let rest := tag.values.drop 4
  let theProps : RectProperties :=
    match props with
    | .static p => p
    | .getter f => f tag internals
  { kind := "rect".toList
    active := true
    fullKey := tag.fullKey
    x := toNumber x
    y := toNumber y
    width := toNumber width
    height := toNumber height
    options := processProps rest theProps }

/-- `makeRects(props)(tag, internals)`: the state of `internals` afterwards
and the returned `ready` flag. -/
def makeRects (props : PropsArg) (tag : TagNode) (internals : Internals) :
    Internals × Bool :=
  let pushed : Internals :=
    { internals with rectList := internals.rectList ++ [rectDefinition props tag internals] }
  (registerIfNotExists rectKeyword pushed, true)

/-- The constant `props` of `rect.ts`. -/
def props : RectProperties := fun k =>
  if k = "classes".toList then some (.string "anking-rect__rect".toList)
  else if k = "labelClasses".toList then some (.string "anking-rect__label".toList)
  else none

/-- The default `frontProperties`: `{ ...props, containerClasses: classesForFront }`. -/
def frontProperties : RectProperties := fun k =>
  if k = "containerClasses".toList then some (.string "is-active is-front".toList)
  else props k

/-! ## Max-Height Controller (`rushInOut`, `setMaxHeightPercent`) -/

/-- `EditorIO.rushInOut(x)`, over the rationals: the decimal constants of the
source are taken at their exact value. -/
def rushInOut (x : ℚ) : ℚ :=
  2.388 * x - 4.166 * x ^ 2 + 2.77 * x ^ 3

/-- The state the Max-Height Controller writes: `EditorIO.maxHeightPercent`
and the custom property `--anking-closet-max-height` (in `px`) of the
document element, `none` while it has never been set. -/
structure MaxHeightState where
  maxHeightPercent : ℚ
  closetMaxHeight : Option ℚ
deriving DecidableEq

/-- `EditorIO.setMaxHeight(value)`. -/
def setMaxHeight (value : ℚ) (st : MaxHeightState) : MaxHeightState :=
  { st with closetMaxHeight := some value }

/-- `EditorIO.setMaxHeightPercent(value)`; `screenHeight` is
`globalThis.screen.height`. -/
def setMaxHeightPercent (screenHeight : ℚ) (value : ℚ) (st : MaxHeightState) :
    MaxHeightState :=
  let maxMaxHeight := screenHeight
  let factor := rushInOut (value / 100)
  setMaxHeight (factor * maxMaxHeight) { st with maxHeightPercent := value }

/-! ## Session Controller (`setActive`, `setInactive`, `setupOcclusionEditor`,
`clearOcclusionMode`, `toggleOcclusionMode`, the accept handler) -/

/-- The mutable members of `EditorIO` the session uses, the `highlighted`
class of the occlusion button, and what the code sends out: bridge commands,
the targets a `reject` event was dispatched on, and the number of
resubscription calls put on the timer queue by `setTimeout` (what such a call
does when the timer fires is outside the model).  A render target and a
field are named by a number. -/
structure EditorState where
  occlusionMode : Bool
  occlusionField : Option Nat
  occlusionEditorTarget : Option Nat
  focusIndex : Nat
  hadOcclusionEditor : Bool
  highlighted : Bool
  bridge : List JSString
  rejected : List Nat
  timers : Nat
deriving DecidableEq, Repr

/-- The members of `EditorIO` as the object literal initialises them. -/
def initialState : EditorState :=
  { occlusionMode := false
    occlusionField := none
    occlusionEditorTarget := none
    focusIndex := 0
    hadOcclusionEditor := false
    highlighted := false
    bridge := []
    rejected := []
    timers := 0 }

/-- `bridgeCommand(cmd)`. -/
def bridgeCommand (cmd : JSString) (st : EditorState) : EditorState :=
  { st with bridge := st.bridge ++ [cmd] }

/-- `EditorIO.setActive(target)`. -/
def setActive (target : Nat) (st : EditorState) : EditorState :=
  bridgeCommand "ankingOcclusionEditorActive".toList
    { st with occlusionEditorTarget := some target, occlusionMode := true, highlighted := true }

/-- `EditorIO.setInactive()`. -/
def setInactive (st : EditorState) : EditorState :=
  bridgeCommand "ankingOcclusionEditorInactive".toList
    { st with occlusionEditorTarget := none, occlusionMode := false, highlighted := false }

/-- The `for` loop of `setupOcclusionEditor` over the fields, each given by
the number of `img` elements in its rich-text editable; `index` names the
field at the head of the list.  The result is the state after the loop and
whether the loop left the function through `return`. -/
def scanFields : List Nat → Nat → Bool → EditorState → EditorState × Bool
  | [], _, _, st => (st, false)
  | images :: fields, index, fieldFound, st =>
    if !fieldFound then
      if images ≠ 0 ∧ !fieldFound then
        if images > 1 then
          (bridgeCommand "ankingClosetMultipleImages".toList st, true)
        else
          scanFields fields (index + 1) true { st with occlusionField := some index }
      else scanFields fields (index + 1) fieldFound st
    else scanFields fields (index + 1) fieldFound st

/-- `EditorIO.setupOcclusionEditor(closet, maxOcclusions)`: `fields` gives the
number of images of every field of the note editor, `target` is the render
target the occlusion editor recipe returns. -/
def setupOcclusionEditor (fields : List Nat) (target : Nat) (st : EditorState) :
    EditorState :=
  match scanFields fields 0 false st with
  | (st1, true) => st1
  | (st1, false) => setActive target st1

/-- `EditorIO.clearOcclusionMode()`; `focused` is what
`getFocusedFieldIndex()` returns.  With the mode on and no target stored the
`dispatchEvent` call throws and nothing is changed. -/
def clearOcclusionMode (focused : Nat) (st : EditorState) : EditorState :=
  if st.occlusionMode then
    match st.occlusionEditorTarget with
    | none => st
    | some target =>
      setInactive
        { st with
          rejected := st.rejected ++ [target]
          timers := st.timers + 1
          focusIndex := focused
          hadOcclusionEditor := true }
  else st

/-- The accept handler built in `setupOcclusionEditor`: `imageSrc` is the
group the image source gives against `imageSrcPattern` (`none`: no match, the
handler throws at once), `newIndices` the joined label indices, `shapeText`
the joined shape texts. -/
def acceptHandler (imageSrc : Option JSString) (newIndices shapeText : JSString)
    (focused : Nat) (st : EditorState) : EditorState :=
  match imageSrc with
  | none => st
  | some src =>
    clearOcclusionMode focused
      (bridgeCommand ("ankingOcclusionText:".toList ++ shapeText)
        (bridgeCommand
          ("ankingNewOcclusions:".toList ++ src ++ ":".toList ++ newIndices) st))

/-- `EditorIO.toggleOcclusionMode(jsPath, maxOcclusions)`: `loaded` tells
whether the dynamic `import` of the closet module succeeds. -/
def toggleOcclusionMode (loaded : Bool) (fields : List Nat) (target focused : Nat)
    (st : EditorState) : EditorState :=
  if st.occlusionMode then clearOcclusionMode focused st
  else if loaded then setupOcclusionEditor fields target st
  else st

/-- The transitions of the Session Controller. -/
inductive Transition where
  | setup (fields : List Nat) (target : Nat)
  | clear (focused : Nat)
  | accept (imageSrc : Option JSString) (newIndices shapeText : JSString) (focused : Nat)
  | toggle (loaded : Bool) (fields : List Nat) (target focused : Nat)

/-- One transition. -/
def step (st : EditorState) : Transition → EditorState
  | .setup fields target => setupOcclusionEditor fields target st
  | .clear focused => clearOcclusionMode focused st
  | .accept imageSrc newIndices shapeText focused =>
    acceptHandler imageSrc newIndices shapeText focused st
  | .toggle loaded fields target focused => toggleOcclusionMode loaded fields target focused st

/-- A sequence of transitions, from a state. -/
def run (st : EditorState) (ts : List Transition) : EditorState :=
  ts.foldl step st

/-! ## Vocabulary of the statements -/

/-- Text of a directive argument before its first `=`; the whole argument
when it has none. -/
def argName (arg : JSString) : JSString :=
  arg.takeWhile (fun c => c ≠ '=')

/-- Text of a directive argument between its first `=` and its second one (or
the end of the argument); `undefined` when the argument has no `=`. -/
def argValue (arg : JSString) : JSValue :=
  if '=' ∈ arg then
    JSValue.string ((arg.dropWhile (fun c => c ≠ '=')).tail.takeWhile (fun c => c ≠ '='))
  else JSValue.undefined

/-- The positional number of a definition: x, y, width, height for 0, 1, 2, 3
(elements 3 to 6 of the tuple). -/
def RectDefinition.positional (d : RectDefinition) (i : Nat) : JSNumber :=
  match i with
  | 0 => d.x
  | 1 => d.y
  | 2 => d.width
  | _ => d.height

/-- Whether a text occurs inside a string. -/
def containsText (pat : JSString) : JSString → Bool
  | [] => pat.isEmpty
  | c :: t => (stripPrefix pat (c :: t)).isSome || containsText pat t

/-- The property `a render target is stored exactly when the mode is on`. -/
def TargetIffMode (st : EditorState) : Prop :=
  st.occlusionEditorTarget.isSome = st.occlusionMode

/-! ## Theorems -/

/-! ### Text Merge Engine without a previous block -/

/-- C3, as stated, fails: merging into an empty field gives the wrapped block
and not the bare text, and the prefix case starts with the wrapped block. -/
theorem merge_no_block_not_bare_text :
    countBlocks [] = 0 ∧ countBlocks "hello".toList = 0 ∧
    replaceOrPrefixOldOcclusionText [] "a".toList = "[#!occlusions a #]".toList ∧
    replaceOrPrefixOldOcclusionText [] "a".toList ≠ "a".toList ∧
    replaceOrPrefixOldOcclusionText "hello".toList "a".toList
      ≠ "a".toList ++ "<br>".toList ++ "hello".toList := by
  decide

/-! ### Escaping and the field write -/

/-- C4, the code at a text with two double quotes: only the first one is
escaped, the second one reaches the bridge as it is. -/
theorem escapeJSText_escapes_first_only :
    escapeJSText "a\"b\"c".toList = "a\\\"b\"c".toList ∧
    escapeJSText "x\\y\\z".toList = "x\\\\y\\z".toList := by
  decide

/-- C5, the code at a field holding an image tag: the markup written back is
the escaped text, so the first double quote of the old markup comes back with
a backslash before it and the field differs from the merged markup. -/
theorem insertIntoZeroIndexed_writes_escaped :
    (insertIntoZeroIndexed "17".toList "x".toList 0
        { fields := ["<img src=\"a.png\">".toList], pycmds := [] }).map EditorPage.fields
      = some ["[#!occlusions x #]<br><img src=\\\"a.png\">".toList] ∧
    replaceOrPrefixOldOcclusionText "<img src=\"a.png\">".toList "x".toList
      = "[#!occlusions x #]<br><img src=\"a.png\">".toList := by
  decide

/-! ### Session Controller -/

/-- C6, the code after one activation on fields without an image, from the
initial state: the mode is on and a target is stored, but no field is. -/
theorem session_mode_on_without_field :
    (run initialState [Transition.setup [0, 0] 7]).occlusionMode = true ∧
    (run initialState [Transition.setup [0, 0] 7]).occlusionEditorTarget = some 7 ∧
    (run initialState [Transition.setup [0, 0] 7]).occlusionField = none := by
  decide

/-- C7, the code at a single field without an image: `setupOcclusionEditor`
switches the mode on, stores the target and reports the editor as active. -/
theorem setup_without_image_activates :
    (setupOcclusionEditor [0] 7 initialState).occlusionMode = true ∧
    (setupOcclusionEditor [0] 7 initialState).occlusionEditorTarget = some 7 ∧
    (setupOcclusionEditor [0] 7 initialState).bridge
      = ["ankingOcclusionEditorActive".toList] := by
  decide

/-! ### Max-Height Controller -/

/-- C10, as stated, fails: on a display 1000 pixels high, 100 percent sets
the ceiling to 992 pixels. -/
theorem maxHeight_100_below_extent :
    (setMaxHeightPercent 1000 100 { maxHeightPercent := 0, closetMaxHeight := none }).closetMaxHeight
      = some 992 ∧
    rushInOut (100 / 100) * 1000 ≠ 1000 := by
  constructor
  · simp only [setMaxHeightPercent, setMaxHeight, rushInOut]
    norm_num
  · simp only [rushInOut]
    norm_num

/-- C10, amended: 100 percent sets the ceiling to 0.992 times the maximum
extent of the display (124/125 of it), for every extent and from every
state, and records the percentage. -/
theorem setMaxHeightPercent_100 (screenHeight : ℚ) (st : MaxHeightState) :
    setMaxHeightPercent screenHeight 100 st
      = { maxHeightPercent := 100, closetMaxHeight := some (124 / 125 * screenHeight) } := by
  simp only [setMaxHeightPercent, setMaxHeight, rushInOut]
  norm_num

/-! ### Numeric coercion in `makeRects` -/

/-- C8, as stated, fails: a directive whose x argument is `abc` gets `NaN`
as x, not 0. -/
theorem makeRects_nonNumeric_not_zero :
    stringNumericLiteral "abc".toList = none ∧
    (makeRects (PropsArg.static props) { fullKey := "rect1".toList, values := ["abc".toList] }
        { rectList := [], aftermath := [] }).1.rectList.map RectDefinition.x
      = [JSNumber.nan] ∧
    JSNumber.nan ≠ JSNumber.finite 0 := by
  decide

/-- C8, amended: for every directive whose positional argument number `i`
(x, y, width, height) is present and is not a numeric string, `makeRects`
returns (ready), appends exactly one definition to the cached list, and that
definition holds `NaN` in that position. -/
theorem makeRects_nonNumeric_nan (p : PropsArg) (tag : TagNode) (internals : Internals)
    (i : Nat) (s : JSString) (hi : i < 4) (hs : tag.values.get? i = some s)
    (hn : stringNumericLiteral s = none) :
    ∃ d : RectDefinition,
      (makeRects p tag internals).1.rectList = internals.rectList ++ [d] ∧
      d.positional i = JSNumber.nan ∧
      (makeRects p tag internals).2 = true := by
  refine ⟨rectDefinition p tag internals, ?_, ?_, rfl⟩
  · simp only [makeRects, registerIfNotExists]
    split <;> rfl
  · have hnan : stringToNumber s = JSNumber.nan := by
      simp [stringToNumber, hn]
    have h4 : i = 0 ∨ i = 1 ∨ i = 2 ∨ i = 3 := by omega
    rw [List.get?_eq_getElem?] at hs
    rcases h4 with rfl | rfl | rfl | rfl <;>
      simp [RectDefinition.positional, rectDefinition, hs, toNumber, hnan, Option.elim]

/-- Witness of `makeRects_nonNumeric_nan`: the width argument `wide`. -/
theorem makeRects_nonNumeric_nan_witness :
    ∃ d : RectDefinition,
      (makeRects (PropsArg.static props)
          { fullKey := "rect1".toList, values := ["1".toList, "2".toList, "wide".toList] }
          { rectList := [], aftermath := [] }).1.rectList = [] ++ [d] ∧
      d.positional 2 = JSNumber.nan ∧
      (makeRects (PropsArg.static props)
          { fullKey := "rect1".toList, values := ["1".toList, "2".toList, "wide".toList] }
          { rectList := [], aftermath := [] }).2 = true :=
  makeRects_nonNumeric_nan (PropsArg.static props)
    { fullKey := "rect1".toList, values := ["1".toList, "2".toList, "wide".toList] }
    { rectList := [], aftermath := [] } 2 "wide".toList (by decide) (by decide) (by decide)

/-! ### Property Resolver -/

/-- C1, as stated, fails: with the front defaults, a directive that supplies
`classes=mine` still ends with the default `classes`. -/
theorem processProps_default_beats_directive :
    propObject ["classes=mine".toList] "classes".toList = some (JSValue.string "mine".toList) ∧
    frontProperties "classes".toList = some (JSValue.string "anking-rect__rect".toList) ∧
    processProps ["classes=mine".toList] frontProperties "classes".toList
      = some (JSValue.string "anking-rect__rect".toList) := by
  decide

/-- C1, amended: in the map returned by `processProps(rest, D)` a key of
`D` (other than `__proto__`) carries the value `D` gives it, whether or not
`rest` supplies the key, and a key `D` does not have carries what the
directive arguments gave it. -/
theorem processProps_defaults_win (rest : List JSString) (D : RectProperties)
    (k : JSString) (hk : k ≠ protoKey) :
    (∀ v, D k = some v → processProps rest D k = some v) ∧
    (D k = none → processProps rest D k = propObject rest k) := by
  constructor
  · intro v hv
    simp [processProps, objectAssign, hk, hv]
  · intro hv
    simp [processProps, objectAssign, hk, hv]

/-- Witness of `processProps_defaults_win`: the key `classes` with the front
defaults and a directive that supplies it. -/
theorem processProps_defaults_win_witness :
    (∀ v, frontProperties "classes".toList = some v →
      processProps ["classes=mine".toList] frontProperties "classes".toList = some v) ∧
    (frontProperties "classes".toList = none →
      processProps ["classes=mine".toList] frontProperties "classes".toList
        = propObject ["classes=mine".toList] "classes".toList) :=
  processProps_defaults_win ["classes=mine".toList] frontProperties "classes".toList (by decide)

/-! ### The block pattern: what a match is -/

theorem stripPrefix_eq_some_iff (p s r : JSString) :
    stripPrefix p s = some r ↔ s = p ++ r := by
  induction p generalizing s with
  | nil => simp [stripPrefix, eq_comm]
  | cons a p ih =>
    cases s with
    | nil => simp [stripPrefix]
    | cons c s =>
      simp only [stripPrefix]
      by_cases h : a = c
      · subst h
        simp [ih]
      · simp [h]
        intro hc
        exact absurd hc.symm h

theorem stripPrefix_append (p r : JSString) : stripPrefix p (p ++ r) = some r :=
  (stripPrefix_eq_some_iff p (p ++ r) r).2 rfl

theorem lazyToClose_sound (s m r : JSString) (h : lazyToClose s = some (m, r)) :
    s = m ++ r ∧ 0 < m.length := by
  induction s generalizing m with
  | nil => simp [lazyToClose] at h
  | cons c t ih =>
    simp only [lazyToClose] at h
    cases hp : stripPrefix blockClose (c :: t) with
    | some rest =>
      rw [hp] at h
      simp only [Option.some.injEq, Prod.mk.injEq] at h
      obtain ⟨rfl, rfl⟩ := h
      exact ⟨(stripPrefix_eq_some_iff _ _ _).1 hp, by decide⟩
    | none =>
      rw [hp] at h
      by_cases hl : isLineTerminator c = true
      · simp [hl] at h
      · simp only [hl] at h
        cases hr : lazyToClose t with
        | none => simp [hr] at h
        | some mr =>
          obtain ⟨m1, r1⟩ := mr
          simp only [hr, Bool.false_eq_true, if_false, Option.some.injEq, Prod.mk.injEq] at h
          obtain ⟨rfl, rfl⟩ := h
          obtain ⟨h1, _⟩ := ih m1 hr
          exact ⟨by rw [h1]; rfl, by simp⟩

theorem matchAt_sound (s m r : JSString) (h : matchAt s = some (m, r)) :
    s = m ++ r ∧ 0 < m.length := by
  unfold matchAt at h
  cases hp : stripPrefix blockOpen s with
  | none => simp [hp] at h
  | some afterOpen =>
    simp only [hp] at h
    cases hl : lazyToClose afterOpen with
    | none => simp [hl] at h
    | some mr =>
      obtain ⟨m1, r1⟩ := mr
      simp only [hl, Option.some.injEq, Prod.mk.injEq] at h
      obtain ⟨rfl, rfl⟩ := h
      obtain ⟨h1, _⟩ := lazyToClose_sound _ _ _ hl
      refine ⟨?_, by simp [blockOpen]⟩
      rw [(stripPrefix_eq_some_iff _ _ _).1 hp, h1, List.append_assoc]

theorem countFrom_drop (k : Nat) (s : JSString) :
    countFrom k s = countFrom 0 (s.drop k) := by
  induction k generalizing s with
  | zero => simp
  | succ k ih =>
    cases s with
    | nil => simp [countFrom]
    | cons c t => simp [countFrom, ih t]

theorem countBlocks_of_matchAt (s m r : JSString) (h : matchAt s = some (m, r)) :
    countBlocks s = 1 + countBlocks r := by
  obtain ⟨hs, hm⟩ := matchAt_sound s m r h
  cases s with
  | nil => simp [matchAt, stripPrefix, blockOpen] at h
  | cons c t =>
    cases m with
    | nil => simp at hm
    | cons a m1 =>
      simp only [List.cons_append, List.cons.injEq] at hs
      obtain ⟨rfl, rfl⟩ := hs
      unfold countBlocks
      rw [countFrom, h]
      simp only [List.length_cons, Nat.add_sub_cancel]
      rw [countFrom_drop]
      simp

theorem execBlock_sound (s pre m r : JSString) (h : execBlock s = some (pre, m, r)) :
    s = pre ++ m ++ r ∧ matchAt (m ++ r) = some (m, r) := by
  induction s generalizing pre with
  | nil => simp [execBlock] at h
  | cons c t ih =>
    simp only [execBlock] at h
    cases hm : matchAt (c :: t) with
    | some mr =>
      obtain ⟨m1, r1⟩ := mr
      simp only [hm, Option.some.injEq, Prod.mk.injEq] at h
      obtain ⟨rfl, rfl, rfl⟩ := h
      obtain ⟨hs, _⟩ := matchAt_sound _ _ _ hm
      exact ⟨by simpa using hs, by rw [← hs]; exact hm⟩
    | none =>
      simp only [hm] at h
      cases he : execBlock t with
      | none => simp [he] at h
      | some pmr =>
        obtain ⟨p1, m1, r1⟩ := pmr
        simp only [he, Option.some.injEq, Prod.mk.injEq] at h
        obtain ⟨rfl, rfl, rfl⟩ := h
        obtain ⟨h1, h2⟩ := ih p1 he
        exact ⟨by rw [h1]; rfl, h2⟩

theorem countBlocks_of_execBlock_none (s : JSString) (h : execBlock s = none) :
    countBlocks s = 0 := by
  induction s with
  | nil => rfl
  | cons c t ih =>
    simp only [execBlock] at h
    cases hm : matchAt (c :: t) with
    | some mr => simp [hm] at h
    | none =>
      simp only [hm] at h
      cases he : execBlock t with
      | some pmr => simp [he] at h
      | none =>
        unfold countBlocks
        rw [countFrom, hm]
        exact ih he

theorem countBlocks_of_execBlock_some (s pre m r : JSString)
    (h : execBlock s = some (pre, m, r)) : countBlocks s = 1 + countBlocks r := by
  induction s generalizing pre with
  | nil => simp [execBlock] at h
  | cons c t ih =>
    simp only [execBlock] at h
    cases hm : matchAt (c :: t) with
    | some mr =>
      obtain ⟨m1, r1⟩ := mr
      simp only [hm, Option.some.injEq, Prod.mk.injEq] at h
      obtain ⟨rfl, rfl, rfl⟩ := h
      exact countBlocks_of_matchAt _ _ _ hm
    | none =>
      simp only [hm] at h
      cases he : execBlock t with
      | none => simp [he] at h
      | some pmr =>
        obtain ⟨p1, m1, r1⟩ := pmr
        simp only [he, Option.some.injEq, Prod.mk.injEq] at h
        obtain ⟨rfl, rfl, rfl⟩ := h
        unfold countBlocks
        rw [countFrom, hm]
        exact ih p1 he

theorem execBlock_none_of_countBlocks_zero (s : JSString) (h : countBlocks s = 0) :
    execBlock s = none := by
  cases he : execBlock s with
  | none => rfl
  | some pmr =>
    obtain ⟨p1, m1, r1⟩ := pmr
    have := countBlocks_of_execBlock_some s p1 m1 r1 he
    omega

/-- C3, amended: when the old markup contains no match of the block pattern,
the merge returns the new block `[#!occlusions ` + lines joined by `<br>` +
` #]` alone when the old markup is empty or `<br>`, and that block, `<br>`
and the old markup otherwise. -/
theorem merge_without_block (oldHTML X : JSString) (h : countBlocks oldHTML = 0) :
    replaceOrPrefixOldOcclusionText oldHTML X =
      if oldHTML = [] ∨ oldHTML = "<br>".toList then
        "[#!occlusions ".toList ++ join "<br>".toList (splitLines X) ++ " #]".toList
      else
        "[#!occlusions ".toList ++ join "<br>".toList (splitLines X) ++ " #]".toList
          ++ "<br>".toList ++ oldHTML := by
  have he := execBlock_none_of_countBlocks_zero oldHTML h
  simp [replaceOrPrefixOldOcclusionText, subn, he, replacement, newHTML]

/-- Witness of `merge_without_block`: the old markup `hello` and two lines. -/
theorem merge_without_block_witness :
    countBlocks "hello".toList = 0 ∧
    replaceOrPrefixOldOcclusionText "hello".toList "a\nb".toList
      = "[#!occlusions a<br>b #]<br>hello".toList :=
  ⟨by decide, (merge_without_block "hello".toList "a\nb".toList (by decide)).trans (by decide)⟩

/-! ### The new block is one match, and replacing keeps the text before it free of matches -/

theorem stripPrefix_close_two (c d : Char) (r : JSString) :
    stripPrefix blockClose (c :: d :: r) = if c = '#' ∧ d = ']' then some r else none := by
  by_cases hc : '#' = c
  · by_cases hd : ']' = d
    · subst hc; subst hd; rfl
    · have hd2 : ¬ d = ']' := fun h => hd h.symm
      subst hc
      simp [stripPrefix, blockClose, hd, hd2]
  · have hc2 : ¬ c = '#' := fun h => hc h.symm
    simp [stripPrefix, blockClose, hc, hc2]

theorem lazyToClose_clean (h S : JSString)
    (hc : containsText blockClose h = false)
    (ht : ∀ c ∈ h, isLineTerminator c = false) :
    lazyToClose (h ++ " #]".toList ++ S) = some (h ++ " #]".toList, S) := by
  induction h with
  | nil => rfl
  | cons c h ih =>
    simp only [containsText, Bool.or_eq_false_iff] at hc
    obtain ⟨hc1, hc2⟩ := hc
    have hc1 : stripPrefix blockClose (c :: h) = none := by
      cases hs : stripPrefix blockClose (c :: h) with
      | none => rfl
      | some r => simp [hs] at hc1
    have htc : isLineTerminator c = false := ht c (by simp)
    have hth : ∀ d ∈ h, isLineTerminator d = false := fun d hd => ht d (by simp [hd])
    have hnone : stripPrefix blockClose (c :: h ++ " #]".toList ++ S) = none := by
      cases h with
      | nil =>
        show stripPrefix blockClose (c :: ' ' :: ('#' :: ']' :: S)) = none
        rw [stripPrefix_close_two]
        simp
      | cons d h2 =>
        rw [stripPrefix_close_two] at hc1
        show stripPrefix blockClose (c :: d :: (h2 ++ " #]".toList ++ S)) = none
        rw [stripPrefix_close_two]
        split_ifs at hc1 ⊢ with hcd
        rfl
    show lazyToClose (c :: (h ++ " #]".toList ++ S)) = _
    rw [lazyToClose]
    have hnone2 : stripPrefix blockClose (c :: (h ++ " #]".toList ++ S)) = none := hnone
    rw [hnone2]
    simp only [htc, Bool.false_eq_true, if_false]
    rw [ih hc2 hth]
    rfl

theorem matchAt_newBlock (h S : JSString)
    (hc : containsText blockClose h = false)
    (ht : ∀ c ∈ h, isLineTerminator c = false) :
    matchAt ("[#!occlusions ".toList ++ h ++ " #]".toList ++ S)
      = some ("[#!occlusions ".toList ++ h ++ " #]".toList, S) := by
  have hc2 : containsText blockClose (' ' :: h) = false := by
    simp only [containsText, Bool.or_eq_false_iff]
    refine ⟨?_, hc⟩
    cases h with
    | nil => rfl
    | cons d h2 =>
      rw [stripPrefix_close_two]
      simp
  have ht2 : ∀ c ∈ ' ' :: h, isLineTerminator c = false := by
    intro c hcm
    rcases List.mem_cons.1 hcm with rfl | hcm
    · rfl
    · exact ht c hcm
  have hl := lazyToClose_clean (' ' :: h) S hc2 ht2
  have hsplit : "[#!occlusions ".toList ++ h ++ " #]".toList ++ S
      = blockOpen ++ ((' ' :: h) ++ " #]".toList ++ S) := by
    simp [blockOpen]
  have hsplit2 : "[#!occlusions ".toList ++ h ++ " #]".toList
      = blockOpen ++ ((' ' :: h) ++ " #]".toList) := by
    simp [blockOpen]
  rw [hsplit, hsplit2]
  simp only [matchAt, stripPrefix_append, hl]

theorem lazyToClose_prepend (a Y : JSString) (hY : lazyToClose Y ≠ none)
    (ha : ∀ c ∈ a, isLineTerminator c = false) : lazyToClose (a ++ Y) ≠ none := by
  induction a with
  | nil => simpa using hY
  | cons c a ih =>
    have hac : isLineTerminator c = false := ha c (by simp)
    have ih2 := ih (fun d hd => ha d (by simp [hd]))
    show lazyToClose (c :: (a ++ Y)) ≠ none
    rw [lazyToClose]
    cases hs : stripPrefix blockClose (c :: (a ++ Y)) with
    | some r => simp
    | none =>
      simp only [hac, Bool.false_eq_true, if_false]
      cases hr : lazyToClose (a ++ Y) with
      | none => exact absurd hr ih2
      | some mr => simp

theorem lazyToClose_transfer (Q X Y : JSString)
    (hX : lazyToClose ('[' :: X) ≠ none)
    (h : lazyToClose (Q ++ '[' :: X) = none) :
    lazyToClose (Q ++ '[' :: Y) = none := by
  induction Q with
  | nil => exact absurd h hX
  | cons c Q ih =>
    have h1 : lazyToClose (c :: (Q ++ '[' :: X)) = none := h
    show lazyToClose (c :: (Q ++ '[' :: Y)) = none
    rw [lazyToClose] at h1 ⊢
    cases hs : stripPrefix blockClose (c :: (Q ++ '[' :: X)) with
    | some r => simp [hs] at h1
    | none =>
      rw [hs] at h1
      have hs2 : stripPrefix blockClose (c :: (Q ++ '[' :: Y)) = none := by
        cases Q with
        | nil =>
          show stripPrefix blockClose (c :: '[' :: Y) = none
          rw [stripPrefix_close_two]
          simp
        | cons d Q2 =>
          have hs3 : stripPrefix blockClose (c :: d :: (Q2 ++ '[' :: X)) = none := hs
          show stripPrefix blockClose (c :: d :: (Q2 ++ '[' :: Y)) = none
          rw [stripPrefix_close_two] at hs3 ⊢
          split_ifs at hs3 ⊢ with hcd
          rfl
      rw [hs2]
      by_cases hl : isLineTerminator c = true
      · simp [hl]
      · simp only [hl, if_false] at h1 ⊢
        cases hr : lazyToClose (Q ++ '[' :: X) with
        | some mr => simp [hr] at h1
        | none => simp [ih hr]

theorem blockOpen_no_overlap (Q X rest : JSString) (hQ : Q ≠ [])
    (h : stripPrefix blockOpen (Q ++ (blockOpen ++ X)) = some rest) :
    ∃ Q2, Q = blockOpen ++ Q2 ∧ rest = Q2 ++ (blockOpen ++ X) := by
  have h1 := (stripPrefix_eq_some_iff _ _ _).1 h
  rcases List.append_eq_append_iff.1 h1 with ⟨a, ha1, ha2⟩ | ⟨c, hc1, hc2⟩
  · cases a with
    | nil =>
      refine ⟨[], by simpa using ha1.symm, ?_⟩
      simpa using ha2.symm
    | cons x a =>
      exfalso
      have hx : x = '[' := by
        have := congrArg List.head? ha2
        simpa [blockOpen] using this.symm
      subst hx
      cases Q with
      | nil => exact hQ rfl
      | cons q Q1 =>
        have hmem : '[' ∈ blockOpen.tail := by
          rw [ha1]
          simp
        exact absurd hmem (by decide)
  · exact ⟨c, hc1, hc2⟩

theorem matchAt_transfer (Q X Y : JSString) (hQ : Q ≠ [])
    (hX : matchAt (blockOpen ++ X) ≠ none)
    (h : matchAt (Q ++ (blockOpen ++ X)) = none) :
    matchAt (Q ++ (blockOpen ++ Y)) = none := by
  have hXl : lazyToClose X ≠ none := by
    intro hn
    apply hX
    simp only [matchAt, stripPrefix_append, hn]
  have hXo : lazyToClose ('[' :: ("#!occlusions".toList ++ X)) ≠ none :=
    lazyToClose_prepend "[#!occlusions".toList X hXl (by decide)
  cases hs : stripPrefix blockOpen (Q ++ (blockOpen ++ Y)) with
  | none => rw [matchAt, hs]
  | some rest =>
    obtain ⟨Q2, rfl, rfl⟩ := blockOpen_no_overlap Q Y rest hQ hs
    have hl : lazyToClose (Q2 ++ (blockOpen ++ X)) = none := by
      rw [List.append_assoc] at h
      simp only [matchAt, stripPrefix_append] at h
      cases hr : lazyToClose (Q2 ++ (blockOpen ++ X)) with
      | none => rfl
      | some mr => simp [hr] at h
    have hl2 : lazyToClose (Q2 ++ '[' :: ("#!occlusions".toList ++ Y)) = none :=
      lazyToClose_transfer Q2 _ _ hXo hl
    have hl3 : lazyToClose (Q2 ++ (blockOpen ++ Y)) = none := hl2
    rw [List.append_assoc]
    simp only [matchAt, stripPrefix_append, hl3]

theorem matchAt_blockOpen_form (s m r : JSString) (h : matchAt s = some (m, r)) :
    ∃ X, s = blockOpen ++ X := by
  unfold matchAt at h
  cases hp : stripPrefix blockOpen s with
  | none => simp [hp] at h
  | some afterOpen => exact ⟨afterOpen, (stripPrefix_eq_some_iff _ _ _).1 hp⟩

theorem execBlock_replace (s pre m r h : JSString)
    (hc : containsText blockClose h = false)
    (ht : ∀ c ∈ h, isLineTerminator c = false)
    (he : execBlock s = some (pre, m, r)) :
    execBlock (pre ++ ("[#!occlusions ".toList ++ h ++ " #]".toList) ++ r)
      = some (pre, "[#!occlusions ".toList ++ h ++ " #]".toList, r) := by
  induction s generalizing pre with
  | nil => simp [execBlock] at he
  | cons c t ih =>
    simp only [execBlock] at he
    cases hm : matchAt (c :: t) with
    | some mr =>
      obtain ⟨m1, r1⟩ := mr
      simp only [hm, Option.some.injEq, Prod.mk.injEq] at he
      obtain ⟨rfl, rfl, rfl⟩ := he
      have hk := matchAt_newBlock h r1 hc ht
      show execBlock ('[' :: ("#!occlusions ".toList ++ h ++ " #]".toList ++ r1)) = _
      rw [execBlock]
      have hk2 : matchAt ('[' :: ("#!occlusions ".toList ++ h ++ " #]".toList ++ r1))
          = some ("[#!occlusions ".toList ++ h ++ " #]".toList, r1) := hk
      rw [hk2]
    | none =>
      simp only [hm] at he
      cases he2 : execBlock t with
      | none => simp [he2] at he
      | some pmr =>
        obtain ⟨p1, m1, r1⟩ := pmr
        simp only [he2, Option.some.injEq, Prod.mk.injEq] at he
        obtain ⟨rfl, rfl, rfl⟩ := he
        obtain ⟨hs1, hs2⟩ := execBlock_sound t p1 m1 r1 he2
        obtain ⟨X, hX⟩ := matchAt_blockOpen_form _ _ _ hs2
        have hXm : matchAt (blockOpen ++ X) ≠ none := by
          rw [← hX, hs2]
          simp
        have hnone : matchAt ((c :: p1) ++ (blockOpen ++ X)) = none := by
          rw [← hX, List.cons_append, ← List.append_assoc, ← hs1]
          exact hm
        have htr := matchAt_transfer (c :: p1) X
          ((' ' :: h) ++ " #]".toList ++ r1) (by simp) hXm hnone
        have hform2 : (c :: p1) ++ (blockOpen ++ ((' ' :: h) ++ " #]".toList ++ r1))
            = c :: (p1 ++ ("[#!occlusions ".toList ++ h ++ " #]".toList) ++ r1) := by
          simp [blockOpen]
        rw [hform2] at htr
        show execBlock (c :: (p1 ++ ("[#!occlusions ".toList ++ h ++ " #]".toList) ++ r1)) = _
        rw [execBlock, htr]
        simp only [ih p1 he2]

theorem countBlocks_br_append (s : JSString) :
    countBlocks ("<br>".toList ++ s) = countBlocks s := by
  show countFrom 0 ('<' :: 'b' :: 'r' :: '>' :: s) = countFrom 0 s
  have hn : ∀ (c : Char) (t : JSString), c ≠ '[' → matchAt (c :: t) = none := by
    intro c t hc
    have : stripPrefix blockOpen (c :: t) = none := by
      simp [stripPrefix, blockOpen, Ne.symm hc]
    rw [matchAt, this]
  rw [countFrom, hn _ _ (by decide), countFrom, hn _ _ (by decide), countFrom,
    hn _ _ (by decide), countFrom, hn _ _ (by decide)]

/-- C2, as stated, fails: with an empty old markup (no match) and a new text
that itself holds `#]`, the result contains two matches of the pattern; with
a new text that holds a lone carriage return it contains none. -/
theorem merge_two_blocks :
    countBlocks [] ≤ 1 ∧
    replaceOrPrefixOldOcclusionText [] "a #] [#!occlusions b".toList
      = "[#!occlusions a #] [#!occlusions b #]".toList ∧
    countBlocks (replaceOrPrefixOldOcclusionText [] "a #] [#!occlusions b".toList) = 2 ∧
    countBlocks (replaceOrPrefixOldOcclusionText [] "a\rb".toList) = 0 := by
  decide

/-- C2, amended: for every old markup with zero or one match of the block
pattern and every new text whose lines joined by `<br>` contain neither the
closing marker `#]` nor a line terminator, the result of the merge contains
exactly one match of the pattern. -/
theorem merge_one_block (oldHTML newText : JSString)
    (hold : countBlocks oldHTML ≤ 1)
    (hclose : containsText blockClose (newHTML newText) = false)
    (hterm : ∀ c ∈ newHTML newText, isLineTerminator c = false) :
    countBlocks (replaceOrPrefixOldOcclusionText oldHTML newText) = 1 := by
  have hnew : ∀ S, countBlocks (replacement newText ++ S) = 1 + countBlocks S := fun S =>
    countBlocks_of_matchAt _ _ _ (matchAt_newBlock (newHTML newText) S hclose hterm)
  cases he : execBlock oldHTML with
  | none =>
    have h0 := countBlocks_of_execBlock_none oldHTML he
    by_cases hempty : oldHTML = [] ∨ oldHTML = "<br>".toList
    · have hres : replaceOrPrefixOldOcclusionText oldHTML newText = replacement newText := by
        simp only [replaceOrPrefixOldOcclusionText, subn, he]
        rw [if_neg (by decide), if_pos hempty]
      have := hnew []
      simp only [List.append_nil] at this
      rw [hres, this]
      rfl
    · have hres : replaceOrPrefixOldOcclusionText oldHTML newText
          = replacement newText ++ ("<br>".toList ++ oldHTML) := by
        simp only [replaceOrPrefixOldOcclusionText, subn, he]
        rw [if_neg (by decide), if_neg hempty, List.append_assoc]
      have := hnew ("<br>".toList ++ oldHTML)
      rw [countBlocks_br_append, h0] at this
      rw [hres, this]
  | some pmr =>
    obtain ⟨p1, m1, r1⟩ := pmr
    have h1 := countBlocks_of_execBlock_some oldHTML p1 m1 r1 he
    have hr : countBlocks r1 = 0 := by omega
    have hx := execBlock_replace oldHTML p1 m1 r1 (newHTML newText) hclose hterm he
    have h2 := countBlocks_of_execBlock_some _ _ _ _ hx
    simp only [replaceOrPrefixOldOcclusionText, subn, he, replacement]
    simpa [hr] using h2

/-- Witness of `merge_one_block`: an old markup with one block, a new text
of two lines. -/
theorem merge_one_block_witness :
    countBlocks "x [#!occlusions old #] y".toList ≤ 1 ∧
    containsText blockClose (newHTML "a\nb".toList) = false ∧
    (∀ c ∈ newHTML "a\nb".toList, isLineTerminator c = false) ∧
    countBlocks (replaceOrPrefixOldOcclusionText "x [#!occlusions old #] y".toList "a\nb".toList)
      = 1 :=
  ⟨by decide, by decide, by decide,
    merge_one_block "x [#!occlusions old #] y".toList "a\nb".toList
      (by decide) (by decide) (by decide)⟩

/-! ### Named arguments -/

theorem split_eq_argName_cons (s : JSString) :
    ∃ r : List JSString, split '=' s = argName s :: r ∧
      (match r.head? with
        | some v => JSValue.string v
        | none => JSValue.undefined) = argValue s := by
  induction s with
  | nil => exact ⟨[], rfl, rfl⟩
  | cons c t ih =>
    obtain ⟨r, hr, hv⟩ := ih
    by_cases hc : c = '='
    · subst hc
      refine ⟨argName t :: r, ?_, ?_⟩
      · simp [split, hr, argName]
      · simp [argValue, argName]
    · refine ⟨r, ?_, ?_⟩
      · simp [split, hr, argName, hc]
      · rw [hv]
        have hc2 : ¬ '=' = c := fun h => hc h.symm
        simp [argValue, hc, hc2]

theorem nameValue_eq (arg : JSString) : nameValue arg = (argName arg, argValue arg) := by
  obtain ⟨r, hr, hv⟩ := split_eq_argName_cons arg
  simp only [nameValue, hr, List.headD_cons, Prod.mk.injEq, true_and]
  rw [← hv]
  cases r <;> rfl

theorem setProp_same (obj : RectProperties) (k : JSString) (v : JSValue) (hk : k ≠ protoKey) :
    setProp obj k v k = some v := by
  simp [setProp, hk]

theorem setProp_other (obj : RectProperties) (k n : JSString) (v : JSValue) (hn : n ≠ k) :
    setProp obj n v k = obj k := by
  unfold setProp
  split
  · rfl
  · simp [Ne.symm hn]

theorem foldl_setProp_other (l : List (JSString × JSValue)) (obj : RectProperties)
    (k : JSString) (h : ∀ nv ∈ l, nv.1 ≠ k) :
    l.foldl (fun o nv => setProp o nv.1 nv.2) obj k = obj k := by
  induction l generalizing obj with
  | nil => rfl
  | cons nv l ih =>
    rw [List.foldl_cons, ih _ (fun x hx => h x (by simp [hx]))]
    exact setProp_other obj k nv.1 nv.2 (h nv (by simp))

/-- C9, as stated, fails: `a=b=c` gives `a` the text up to the second `=`
only, and an argument without `=` does get an entry, holding `undefined`. -/
theorem propObject_splits_every_equals :
    propObject ["a=b=c".toList] "a".toList = some (JSValue.string "b".toList) ∧
    propObject ["a=b=c".toList] "a".toList ≠ some (JSValue.string "b=c".toList) ∧
    propObject ["zzz".toList] "zzz".toList = some JSValue.undefined ∧
    propObject ["zzz".toList] "zzz".toList ≠ none := by
  decide

/-- C9, amended: in the map built by `processProps` before the role
properties are merged in, an argument whose name (the text before its first
`=`, the whole argument when it has none) is not `__proto__` and is not the
name of a later argument has an entry under that name; the entry holds the
text between the first `=` and the next one (or the end of the argument), and
`undefined` when the argument has no `=`. -/
theorem propObject_entry (pre post : List JSString) (arg : JSString)
    (hname : argName arg ≠ protoKey)
    (hlast : ∀ a ∈ post, argName a ≠ argName arg) :
    propObject (pre ++ arg :: post) (argName arg) = some (argValue arg) := by
  unfold propObject
  rw [List.map_append, List.map_cons, List.foldl_append, List.foldl_cons, nameValue_eq]
  rw [foldl_setProp_other]
  · exact setProp_same _ _ _ hname
  · intro nv hnv
    obtain ⟨a, ha, rfl⟩ := List.mem_map.1 hnv
    rw [nameValue_eq]
    exact hlast a ha

/-- Witness of `propObject_entry`: the argument `a=b=c` between two others. -/
theorem propObject_entry_witness :
    argName "a=b=c".toList = "a".toList ∧
    argValue "a=b=c".toList = JSValue.string "b".toList ∧
    propObject (["a=old".toList] ++ "a=b=c".toList :: ["zzz".toList]) (argName "a=b=c".toList)
      = some (argValue "a=b=c".toList) :=
  ⟨by decide, by decide,
    propObject_entry ["a=old".toList] ["zzz".toList] "a=b=c".toList (by decide) (by decide)⟩

/-! ### Further properties of the code -/

theorem scanFields_target_mode (fields : List Nat) (index : Nat) (found : Bool)
    (st : EditorState) :
    (scanFields fields index found st).1.occlusionEditorTarget = st.occlusionEditorTarget ∧
    (scanFields fields index found st).1.occlusionMode = st.occlusionMode := by
  induction fields generalizing index found st with
  | nil => exact ⟨rfl, rfl⟩
  | cons images fields ih =>
    rw [scanFields]
    split_ifs
    · exact ⟨rfl, rfl⟩
    · exact ih _ _ _
    · exact ih _ _ _
    · exact ih _ _ _

theorem setupOcclusionEditor_targetIffMode (fields : List Nat) (target : Nat)
    (st : EditorState) (h : TargetIffMode st) :
    TargetIffMode (setupOcclusionEditor fields target st) := by
  obtain ⟨h1, h2⟩ := scanFields_target_mode fields 0 false st
  unfold setupOcclusionEditor
  cases hs : scanFields fields 0 false st with
  | mk st1 aborted =>
    rw [hs] at h1 h2
    cases aborted
    · rfl
    · show st1.occlusionEditorTarget.isSome = st1.occlusionMode
      rw [h1, h2]
      exact h

theorem clearOcclusionMode_targetIffMode (focused : Nat) (st : EditorState)
    (h : TargetIffMode st) : TargetIffMode (clearOcclusionMode focused st) := by
  unfold clearOcclusionMode
  split_ifs
  · cases ht : st.occlusionEditorTarget with
    | none => simpa using h
    | some t => rfl
  · exact h

theorem step_targetIffMode (st : EditorState) (t : Transition) (h : TargetIffMode st) :
    TargetIffMode (step st t) := by
  cases t with
  | setup fields target => exact setupOcclusionEditor_targetIffMode fields target st h
  | clear focused => exact clearOcclusionMode_targetIffMode focused st h
  | accept imageSrc newIndices shapeText focused =>
    cases imageSrc with
    | none => exact h
    | some src => exact clearOcclusionMode_targetIffMode focused _ h
  | toggle loaded fields target focused =>
    show TargetIffMode (toggleOcclusionMode loaded fields target focused st)
    unfold toggleOcclusionMode
    split_ifs
    · exact clearOcclusionMode_targetIffMode focused st h
    · exact setupOcclusionEditor_targetIffMode fields target st h
    · exact h

theorem run_targetIffMode (ts : List Transition) (st : EditorState) (h : TargetIffMode st) :
    TargetIffMode (run st ts) := by
  induction ts generalizing st with
  | nil => exact h
  | cons t ts ih => exact ih (step st t) (step_targetIffMode st t h)

/-- In every state reachable from the initial state by the transitions of
the Session Controller, `occlusionEditorTarget` is non-null exactly when
`occlusionMode` is true. -/
theorem reachable_target_iff_mode (ts : List Transition) :
    (run initialState ts).occlusionEditorTarget.isSome = (run initialState ts).occlusionMode :=
  run_targetIffMode ts initialState rfl

/-- When the first field that holds an image holds more than one,
`setupOcclusionEditor` only sends `ankingClosetMultipleImages`: the mode, the
target and the field are left as they were. -/
theorem setup_multiple_images (k n : Nat) (rest : List Nat) (target : Nat)
    (st : EditorState) (hn : 1 < n) :
    setupOcclusionEditor (List.replicate k 0 ++ n :: rest) target st
      = bridgeCommand "ankingClosetMultipleImages".toList st := by
  have hscan : ∀ index, scanFields (List.replicate k 0 ++ n :: rest) index false st
      = (bridgeCommand "ankingClosetMultipleImages".toList st, true) := by
    induction k with
    | zero =>
      intro index
      have h0 : n ≠ 0 := by omega
      simp [scanFields, h0, hn]
    | succ k ih =>
      intro index
      rw [List.replicate_succ, List.cons_append, scanFields]
      simp [ih]
  unfold setupOcclusionEditor
  rw [hscan 0]

/-- Witness of `setup_multiple_images`: an empty field, then one with two
images. -/
theorem setup_multiple_images_witness :
    1 < 2 ∧
    setupOcclusionEditor (List.replicate 1 0 ++ 2 :: [1]) 7 initialState
      = bridgeCommand "ankingClosetMultipleImages".toList initialState :=
  ⟨by decide, setup_multiple_images 1 2 [1] 7 initialState (by decide)⟩

/-- A directive without a fourth positional argument gets its width as
height. -/
theorem rectDefinition_height_default (p : PropsArg) (tag : TagNode) (internals : Internals)
    (h : tag.values.get? 3 = none) :
    (rectDefinition p tag internals).height = (rectDefinition p tag internals).width := by
  rw [List.get?_eq_getElem?] at h
  simp [rectDefinition, h]

/-- Witness of `rectDefinition_height_default`: three positional arguments. -/
theorem rectDefinition_height_default_witness :
    (rectDefinition (PropsArg.static props)
        { fullKey := "rect1".toList, values := ["1".toList, "2".toList, "30".toList] }
        { rectList := [], aftermath := [] }).height
      = (rectDefinition (PropsArg.static props)
        { fullKey := "rect1".toList, values := ["1".toList, "2".toList, "30".toList] }
        { rectList := [], aftermath := [] }).width :=
  rectDefinition_height_default (PropsArg.static props)
    { fullKey := "rect1".toList, values := ["1".toList, "2".toList, "30".toList] }
    { rectList := [], aftermath := [] } (by decide)

/-- At 50 percent the pixel ceiling is 0.49875 times the maximum extent of
the display, strictly between 0 and that extent when it is positive. -/
theorem setMaxHeightPercent_50 (screenHeight : ℚ) (st : MaxHeightState)
    (hpos : 0 < screenHeight) :
    ∃ px : ℚ, (setMaxHeightPercent screenHeight 50 st).closetMaxHeight = some px ∧
      px = 399 / 800 * screenHeight ∧ 0 < px ∧ px < screenHeight := by
  refine ⟨399 / 800 * screenHeight, ?_, rfl, by positivity, by linarith⟩
  simp only [setMaxHeightPercent, setMaxHeight, rushInOut]
  norm_num

/-- Witness of `setMaxHeightPercent_50`: a display 1080 pixels high. -/
theorem setMaxHeightPercent_50_witness :
    ∃ px : ℚ, (setMaxHeightPercent 1080 50
        { maxHeightPercent := 0, closetMaxHeight := none }).closetMaxHeight = some px ∧
      px = 399 / 800 * 1080 ∧ 0 < px ∧ px < 1080 :=
  setMaxHeightPercent_50 1080 { maxHeightPercent := 0, closetMaxHeight := none } (by norm_num)

/-- When the old markup holds a block, the merge replaces the leftmost match
by the new block and keeps the text before and after it. -/
theorem merge_replaces_first_match (oldHTML newText pre m rest : JSString)
    (h : execBlock oldHTML = some (pre, m, rest)) :
    oldHTML = pre ++ m ++ rest ∧
    replaceOrPrefixOldOcclusionText oldHTML newText = pre ++ replacement newText ++ rest := by
  refine ⟨(execBlock_sound oldHTML pre m rest h).1, ?_⟩
  simp only [replaceOrPrefixOldOcclusionText, subn, h]
  rw [if_pos (by decide)]

/-- Witness of `merge_replaces_first_match`: two blocks, the first one is
replaced. -/
theorem merge_replaces_first_match_witness :
    "x [#!occlusions old #] y [#!occlusions z #]".toList
      = "x ".toList ++ "[#!occlusions old #]".toList ++ " y [#!occlusions z #]".toList ∧
    replaceOrPrefixOldOcclusionText "x [#!occlusions old #] y [#!occlusions z #]".toList
        "a".toList
      = "x ".toList ++ replacement "a".toList ++ " y [#!occlusions z #]".toList :=
  merge_replaces_first_match "x [#!occlusions old #] y [#!occlusions z #]".toList "a".toList
    "x ".toList "[#!occlusions old #]".toList " y [#!occlusions z #]".toList (by decide)

end AnkingNotes
